import Mathlib

/-!
Verification of the vue-state-tree core (src/index.esm.js): the structural
schema validator (deepTypeCheck), the watch-path deriver (getWatchProperties),
the type-predicate library (types.*), and the mutation guard (mutex counter)
installed by model().  JavaScript values are embedded as an inductive JSValue;
fallible code returns Except String; machine numbers are modelled as Int
(the claims do not depend on floating-point behaviour).
-/

namespace VueStateTree

/-- A path segment: a field name or a numeric array index. -/
inductive Seg where
  | key (s : String)
  | idx (n : Nat)
deriving Repr, DecidableEq

abbrev Path := List Seg

/-- One step of the reduce in stringifyPath: string segments dot-joined,
numeric indices rendered in square brackets. -/
def pathStep (acc : String) : Seg → String
  | .key s => acc ++ "." ++ s
  | .idx n => acc ++ "[" ++ toString n ++ "]"

/-- The first reduce accumulator is the raw first element; a string stays
itself, a number is rendered by the template coercion. -/
def segHead : Seg → String
  | .key s => s
  | .idx n => toString n

/-- The suffix a segment appends to a non-empty stringified path. -/
def segSuffix : Seg → String
  | .key s => "." ++ s
  | .idx n => "[" ++ toString n ++ "]"

/-- stringifyPath from the source: path.reduce with no initial value.
The source throws on an empty path (reduce of an empty array); every call in
the library seeds the path with the bracketed model name, so the empty case
is unreachable and is modelled as the empty string. -/
def stringifyPath : Path → String
  | [] => ""
  | e :: rest => rest.foldl pathStep (segHead e)

/-- A JavaScript value: undefined, null, primitives, objects (insertion-ordered
field list), arrays, and constructed model instances (Vue components, carrying
the _isVue marker and registered name).  Reference identity of objects is not
modelled. -/
inductive JSValue where
  | undefined
  | null
  | bool (b : Bool)
  | num (n : Int)
  | str (s : String)
  | obj (fields : List (String × JSValue))
  | arr (elems : List JSValue)
  | vueInstance (name : String)

/-- JavaScript truthiness. -/
def truthy : JSValue → Bool
  | .undefined => false
  | .null => false
  | .bool b => b
  | .num n => n != 0
  | .str s => s != ""
  | .obj _ => true
  | .arr _ => true
  | .vueInstance _ => true

def isUndefined : JSValue → Bool
  | .undefined => true
  | _ => false

def isNull : JSValue → Bool
  | .null => true
  | _ => false

/-- isObject from the source: value && !Array.isArray(value) && typeof value
=== 'object'.  A constructed model instance is an object. -/
def isObject : JSValue → Bool
  | .obj _ => true
  | .vueInstance _ => true
  | _ => false

/-- Array.isArray. -/
def isArray : JSValue → Bool
  | .arr _ => true
  | _ => false

/-- Strict equality (===) on primitives.  Reference equality of objects,
arrays and instances is not modelled; they compare unequal. -/
def jsStrictEq : JSValue → JSValue → Bool
  | .undefined, .undefined => true
  | .null, .null => true
  | .bool a, .bool b => a == b
  | .num a, .num b => a == b
  | .str a, .str b => a == b
  | _, _ => false

def lookupField : List (String × JSValue) → String → JSValue
  | [], _ => .undefined
  | (k, v) :: rest, n => if k = n then v else lookupField rest n

/-- Property read on a value that is not null or undefined: objects yield
the own field or undefined; a model instance exposes the runtime marker
_isVue and $options.name; every other access yields undefined.  Inherited
Object.prototype members and the properties of boxed primitives (such as
the length of a string) are not modelled; the guard-safety and
prototype-collision hypotheses of the completeness theorem confine the
validator's property reads to the faithful domain. -/
def dataGet : JSValue → String → JSValue
  | .obj fields, k => lookupField fields k
  | .vueInstance n, k =>
      if k = "_isVue" then .bool true
      else if k = "$options" then .obj [("name", .str n)]
      else .undefined
  | _, _ => .undefined

/-- Property read as JavaScript performs it: reading a property of null or
undefined throws a TypeError (whose message carries no schema path). -/
def getProp : JSValue → String → Except String JSValue
  | .null, k => .error ("Cannot read properties of null (reading " ++ k ++ ")")
  | .undefined, k => .error ("Cannot read properties of undefined (reading " ++ k ++ ")")
  | v, k => .ok (dataGet v k)

mutual
/-- JSON.stringify as used in the error messages.  String escaping, the
dropping of undefined object members and the serialization of constructed
instances are not modelled; no claim depends on them. -/
def jsonStringify : JSValue → String
  | .undefined => "undefined"
  | .null => "null"
  | .bool b => cond b "true" "false"
  | .num n => toString n
  | .str s => "\"" ++ s ++ "\""
  | .obj fields => "\x7b" ++ jsonFields fields ++ "\x7d"
  | .arr elems => "[" ++ jsonElems elems ++ "]"
  | .vueInstance _ => "\x7b\x7d"

def jsonFields : List (String × JSValue) → String
  | [] => ""
  | [(k, v)] => "\"" ++ k ++ "\":" ++ jsonStringify v
  | (k, v) :: rest => "\"" ++ k ++ "\":" ++ jsonStringify v ++ "," ++ jsonFields rest

def jsonElems : List JSValue → String
  | [] => ""
  | [v] => jsonStringify v
  | v :: rest => jsonStringify v ++ "," ++ jsonElems rest
end

/-- A leaf type predicate as the library uses them: called with the value and
the current path, it returns a boolean or throws. -/
abbrev Pred := JSValue → Path → Except String Bool

/-- A schema node as the validator inspects it: a falsy value (undefined,
null, false, 0 or the empty string, all rejected by the sanity check), a
predicate function, an object mapping, or an array.  The source stores
schemas as plain JavaScript values; this type carves out the kinds the
validator distinguishes. -/
inductive Schema where
  | falsy
  | pred (f : Pred)
  | obj (fields : List (String × Schema))
  | arr (elems : List Schema)

/-- isObject applied to a schema node (truthy, not an array, typeof object). -/
def isObjectS : Schema → Bool
  | .obj _ => true
  | _ => false

/-- schema[0] && typeof schema[0] === 'object': arrays are also typeof
object, so both object and array element schemas take the deep branch. -/
def isObjOrArrS : Schema → Bool
  | .obj _ => true
  | .arr _ => true
  | _ => false

/-- schema[0] && typeof schema[0] === 'function'. -/
def isFnS : Schema → Bool
  | .pred _ => true
  | _ => false

def isFalsyS : Schema → Bool
  | .falsy => true
  | _ => false

def predOfS : Schema → Pred
  | .pred f => f
  | _ => fun _ _ => .ok false

/-- typeCheck from the source: apply the validator and throw a path-qualified
TypeError when the result is falsy. -/
def typeCheck (value : JSValue) (validator : Pred) (path : Path) : Except String Unit := do
  let b ← validator value path
  if b then .ok ()
  else .error ("check failed for data property at path " ++ stringifyPath path
    ++ ". Got: " ++ jsonStringify value)

/-- dataStore.forEach over an array whose element schema is a predicate:
leaf-check each element with the path extended by the numeric index.  Note
the source calls typeCheck directly here, skipping the undefined-data guard
that object-position traversal applies. -/
def checkAllLeaf : List JSValue → Pred → Path → Nat → Except String Unit
  | [], _, _, _ => .ok ()
  | v :: rest, f, path, i => do
    typeCheck v f (path ++ [.idx i])
    checkAllLeaf rest f path (i + 1)

mutual
/-- deepTypeCheck from the source.  Sanity checks first (falsy schema, then
undefined data), then the array branch (element sub-schema deep-checked or
leaf-checked per element), then the object branch (schema keys drive the
iteration), and finally the leaf predicate. -/
def deepTypeCheck : JSValue → Schema → Path → Except String Unit
  | _, .falsy, path => .error ("invalid schema property for path: " ++ stringifyPath path)
  | .undefined, _, path => .error ("undefined data property at path: " ++ stringifyPath path)
  | dataStore, .arr elems, path =>
    match dataStore with
    | .arr vs =>
      match elems with
      | [] => .ok ()
      | sub :: _ =>
        if isObjOrArrS sub then checkAllDeep vs sub path 0
        else if isFnS sub then checkAllLeaf vs (predOfS sub) path 0
        else .ok ()
    | _ => .error ("expected array for data property at path " ++ stringifyPath path
        ++ ", Got: " ++ jsonStringify dataStore)
  | dataStore, .obj fields, path => checkFields dataStore fields path
  | dataStore, .pred f, path => typeCheck dataStore f path
termination_by _ s _ => (sizeOf s, 0)

/-- dataStore.forEach over an array whose element schema is an object or
array: recurse with the path extended by the numeric index. -/
def checkAllDeep : List JSValue → Schema → Path → Nat → Except String Unit
  | [], _, _, _ => .ok ()
  | v :: rest, sub, path, i => do
    deepTypeCheck v sub (path ++ [.idx i])
    checkAllDeep rest sub path (i + 1)
termination_by vs sub _ _ => (sizeOf sub, vs.length + 1)

/-- Object.keys(schema).forEach: for each schema key, raise if the sub-schema
is object-shaped but the data value is not, then recurse.  The property read
is hoisted: && short-circuiting in the source reads dataStore[key] either in
the guard or as the call argument, with the same thrown TypeError when
dataStore is null. -/
def checkFields : JSValue → List (String × Schema) → Path → Except String Unit
  | _, [], _ => .ok ()
  | dataStore, (key, sub) :: rest, path => do
    let vk ← getProp dataStore key
    if isObjectS sub && !(isObject vk) then
      .error ("expected object for data property at path " ++ stringifyPath (path ++ [.key key])
        ++ ", Got: " ++ jsonStringify vk)
    else do
      deepTypeCheck vk sub (path ++ [.key key])
      checkFields dataStore rest path
termination_by _ fs _ => (sizeOf fs, 0)
end

/-!  The type predicate library (export const types).  The combinators call
their inner predicates with the value only; the absent path argument
(undefined in JavaScript) is modelled by undefinedPath.  -/

def undefinedPath : Path := []

/-- types.boolean. -/
def typesBoolean : Pred := fun v _ => .ok (match v with | .bool _ => true | _ => false)

/-- types.number. -/
def typesNumber : Pred := fun v _ => .ok (match v with | .num _ => true | _ => false)

/-- types.string. -/
def typesString : Pred := fun v _ => .ok (match v with | .str _ => true | _ => false)

/-- types.enum: true iff the value strictly equals one of the literals. -/
def typesEnum (literals : List JSValue) : Pred :=
  fun v _ => .ok (literals.any (fun l => jsStrictEq v l))

def unionSome (v : JSValue) : List Pred → Except String Bool
  | [] => .ok false
  | f :: rest => do
    let b ← f v undefinedPath
    if b then .ok true else unionSome v rest

/-- types.union: true iff some argument predicate accepts the value. -/
def typesUnion (args : List Pred) : Pred := fun v _ => unionSome v args

/-- The predicate types.maybeNull builds when its argument is a nested
schema (typeof object): true for null, otherwise delegate to deepTypeCheck
and report true when it did not raise. -/
def maybeNullDeepPred (t : Schema) : Pred := fun v path =>
  if isNull v then .ok true
  else do
    deepTypeCheck v t path
    .ok true

/-- The predicate types.maybeNull builds when its argument is a plain
predicate: v === null || anotherType(v). -/
def maybeNullPlainPred (f : Pred) : Pred := fun v _ =>
  if isNull v then .ok true else f v undefinedPath

/-- types.maybeNull: throws on a falsy argument, delegates deep validation
for object-shaped arguments (objects and arrays are typeof object), wraps a
plain predicate otherwise. -/
def maybeNull : Schema → Except String Pred
  | .falsy => .error "You must pass an object or type function to maybeNull()"
  | .obj fs => .ok (maybeNullDeepPred (.obj fs))
  | .arr es => .ok (maybeNullDeepPred (.arr es))
  | .pred f => .ok (maybeNullPlainPred f)

/-- types.model: v => v._isVue && v.$options.name === name.  The property
reads go through getProp, so null and undefined inputs raise just as they do
in JavaScript; a falsy marker short-circuits to a falsy result, modelled as
false. -/
def typesModel (name : String) : Pred := fun v _ => do
  let marker ← getProp v "_isVue"
  if truthy marker then do
    let opts ← getProp v "$options"
    let nm ← getProp opts "name"
    .ok (jsStrictEq nm (.str name))
  else .ok false

/-!  getWatchProperties: flatten the schema mapping into the dot-joined leaf
paths, recursing only into plain object-shaped nodes.  -/

/-- The nested reducer from the source: getReducerForPath(path) folded over
Object.entries, threading the accumulator. -/
def gwpGo : List String → List (String × Schema) → List String → List String
  | _, [], acc => acc
  | path, (key, .obj fs2) :: rest, acc =>
    gwpGo path rest (gwpGo (path ++ [key]) fs2 acc)
  | path, (key, _) :: rest, acc =>
    gwpGo path rest (acc ++ [String.intercalate "." (path ++ [key])])
termination_by _ fields _ => sizeOf fields

/-- getWatchProperties from the source, on a schema mapping. -/
def getWatchProperties (schema : List (String × Schema)) : List String :=
  gwpGo [] schema []

/-- Watch-path derivation as the specification words it: a plain
object-shaped node is recursed into with the path extended by its key and
contributes no path of its own, every other value contributes exactly one
dot-joined path, in schema key order. -/
def specWatchPaths : List String → List (String × Schema) → List String
  | _, [] => []
  | path, (key, .obj fs2) :: rest =>
    specWatchPaths (path ++ [key]) fs2 ++ specWatchPaths path rest
  | path, (key, _) :: rest =>
    [String.intercalate "." (path ++ [key])] ++ specWatchPaths path rest
termination_by _ fields => sizeOf fields

/-!  Substring machinery for the error-message claims.  -/

/-- hasPre needle hay: needle is a leading run of hay. -/
def hasPre : List Char → List Char → Bool
  | [], _ => true
  | _ :: _, [] => false
  | c :: cs, d :: ds => c == d && hasPre cs ds

/-- containsL hay needle: needle occurs contiguously somewhere in hay. -/
def containsL : List Char → List Char → Bool
  | [], needle => hasPre needle []
  | hay@(_ :: rest), needle => hasPre needle hay || containsL rest needle

/-- The message m contains the string s. -/
def strContains (m s : String) : Bool := containsL m.data s.data

/-!  Structural matching as the claims word it.  specMatches follows the
claim sentence for C1 literally: every leaf value satisfies its leaf
predicate, every object-shaped schema node meets an object value with each
keyed sub-schema matched, every array schema node meets an array value whose
elements match the element sub-schema.  specFirstMismatch additionally
locates the first failure of this matching in depth-first, schema-key order,
counting an undefined value at a leaf as a mismatch (the strengthening the
amended C1 requires).  -/

mutual
def specMatches : JSValue → Schema → Path → Bool
  | _, .falsy, _ => false
  | v, .pred f, p => (match f v p with | .ok true => true | _ => false)
  | v, .arr elems, p =>
    match v with
    | .arr vs =>
      match elems with
      | [] => true
      | sub :: _ => specMatchesElems vs sub p 0
    | _ => false
  | v, .obj fields, p => isObject v && specMatchesFields v fields p
termination_by _ s _ => (sizeOf s, 0)

def specMatchesElems : List JSValue → Schema → Path → Nat → Bool
  | [], _, _, _ => true
  | w :: rest, sub, p, i => specMatches w sub (p ++ [.idx i]) && specMatchesElems rest sub p (i + 1)
termination_by vs sub _ _ => (sizeOf sub, vs.length + 1)

def specMatchesFields : JSValue → List (String × Schema) → Path → Bool
  | _, [], _ => true
  | d, (k, sub) :: rest, p =>
    specMatches (dataGet d k) sub (p ++ [.key k]) && specMatchesFields d rest p
termination_by _ fs _ => (sizeOf fs, 0)
end

mutual
def specFirstMismatch : JSValue → Schema → Path → Option Path
  | _, .falsy, p => some p
  | v, .pred f, p =>
    if isUndefined v then some p
    else (match f v p with | .ok true => none | _ => some p)
  | v, .arr elems, p =>
    match v with
    | .arr vs =>
      match elems with
      | [] => none
      | sub :: _ => firstMismatchElems vs sub p 0
    | _ => some p
  | v, .obj fields, p => if isObject v then firstMismatchFields v fields p else some p
termination_by _ s _ => (sizeOf s, 0)

def firstMismatchElems : List JSValue → Schema → Path → Nat → Option Path
  | [], _, _, _ => none
  | w :: rest, sub, p, i =>
    match specFirstMismatch w sub (p ++ [.idx i]) with
    | some q => some q
    | none => firstMismatchElems rest sub p (i + 1)
termination_by vs sub _ _ => (sizeOf sub, vs.length + 1)

def firstMismatchFields : JSValue → List (String × Schema) → Path → Option Path
  | _, [], _ => none
  | d, (k, sub) :: rest, p =>
    match specFirstMismatch (dataGet d k) sub (p ++ [.key k]) with
    | some q => some q
    | none => firstMismatchFields d rest p
termination_by _ fs _ => (sizeOf fs, 0)
end

/-!  Hypotheses for the corrected validator claims.  -/

mutual
/-- A well-formed schema: no falsy schema node anywhere. -/
def wellFormed : Schema → Bool
  | .falsy => false
  | .pred _ => true
  | .obj fields => wfFields fields
  | .arr elems => wfElems elems
termination_by s => sizeOf s

def wfFields : List (String × Schema) → Bool
  | [] => true
  | (_, sub) :: rest => wellFormed sub && wfFields rest
termination_by fs => sizeOf fs

def wfElems : List Schema → Bool
  | [] => true
  | sub :: rest => wellFormed sub && wfElems rest
termination_by es => sizeOf es
end

/-- A disciplined leaf predicate: on every input it either returns a boolean
(false on undefined values) or raises an error whose message contains the
stringified path it was given. -/
def goodPred (f : Pred) : Prop := ∀ v p,
  (∃ b, f v p = .ok b ∧ (isUndefined v = true → b = false)) ∨
  (∃ m, f v p = .error m ∧ strContains m (stringifyPath p) = true)

mutual
/-- Every leaf predicate in the schema is disciplined. -/
def allPreds : Schema → Prop
  | .falsy => True
  | .pred f => goodPred f
  | .obj fields => allPredsF fields
  | .arr elems => allPredsE elems
termination_by s => sizeOf s

def allPredsF : List (String × Schema) → Prop
  | [] => True
  | (_, sub) :: rest => allPreds sub ∧ allPredsF rest
termination_by fs => sizeOf fs

def allPredsE : List Schema → Prop
  | [] => True
  | sub :: rest => allPreds sub ∧ allPredsE rest
termination_by es => sizeOf es
end

mutual
/-- Guard-safety of a data value for a schema: every object-shaped schema
node the traversal reaches outside the parent-key guard meets a plain
object value or undefined.  This keeps every property read the validator
performs within the domain where the embedding is faithful to JavaScript:
an own data property of a plain object, or a genuinely undefined miss.  It
rules out reads on null (a pathless native TypeError), on boxed primitives
and arrays (whose length and index properties the embedding does not
carry), and on constructed instances.  Object nodes reached under the
parent-key guard are exempt, because the source raises its own
expected-object error there before recursing. -/
def safeFor : JSValue → Schema → Bool
  | _, .falsy => true
  | _, .pred _ => true
  | v, .arr elems =>
    (match v with
    | .arr vs =>
      (match elems with
      | [] => true
      | sub :: _ => safeElems vs sub)
    | _ => true)
  | v, .obj fields =>
    (match v with
    | .obj _ => safeFields v fields
    | .undefined => true
    | _ => false)
termination_by _ s => (sizeOf s, 0)

def safeElems : List JSValue → Schema → Bool
  | [], _ => true
  | w :: rest, sub => safeFor w sub && safeElems rest sub
termination_by vs sub => (sizeOf sub, vs.length + 1)

def safeFields : JSValue → List (String × Schema) → Bool
  | _, [] => true
  | d, (k, sub) :: rest =>
    (if isObjectS sub && !(isObject (dataGet d k)) then true
     else safeFor (dataGet d k) sub) && safeFields d rest
termination_by _ fs => (sizeOf fs, 0)
end

/-- The enumerable-by-name members every plain JavaScript object inherits
from Object.prototype (plus the __proto__ accessor): reading one of these
keys from an object that lacks it as an own property yields the inherited
member, not undefined. -/
def protoMemberNames : List String :=
  ["toString", "toLocaleString", "valueOf", "hasOwnProperty", "isPrototypeOf",
   "propertyIsEnumerable", "constructor", "__proto__", "__defineGetter__",
   "__defineSetter__", "__lookupGetter__", "__lookupSetter__"]

mutual
/-- No object-shaped node of the schema uses a key that collides with an
inherited Object.prototype member, so a key missing from the data object is
read as undefined by JavaScript, exactly as the embedding reads it. -/
def protoFree : Schema → Bool
  | .falsy => true
  | .pred _ => true
  | .obj fields => protoFreeFields fields
  | .arr elems => protoFreeElems elems
termination_by s => sizeOf s

def protoFreeFields : List (String × Schema) → Bool
  | [] => true
  | (k, sub) :: rest =>
    !(protoMemberNames.contains k) && protoFree sub && protoFreeFields rest
termination_by fs => sizeOf fs

def protoFreeElems : List Schema → Bool
  | [] => true
  | sub :: rest => protoFree sub && protoFreeElems rest
termination_by es => sizeOf es
end

mutual
/-- The data tree contains no constructed model instance.  A component is a
circular structure, so JSON.stringify throws on it; an error message whose
serialized snapshot would reach one is replaced by that pathless TypeError
in JavaScript. -/
def noInstances : JSValue → Bool
  | .vueInstance _ => false
  | .obj fields => noInstancesFields fields
  | .arr elems => noInstancesElems elems
  | _ => true
termination_by v => sizeOf v

def noInstancesFields : List (String × JSValue) → Bool
  | [] => true
  | (_, v) :: rest => noInstances v && noInstancesFields rest
termination_by fs => sizeOf fs

def noInstancesElems : List JSValue → Bool
  | [] => true
  | v :: rest => noInstances v && noInstancesElems rest
termination_by es => sizeOf es
end

/-!  The immutability mechanism of model(): wrapping of methods and computed
setters around the mutex counter, and the watch callback that consumes
guarded-mutation credits.  A method executes against its receiver (the
component), modelled as the mutex counter plus the reactive data tree; the
wrapper mutates this._mutex before delegating.  -/

/-- The receiver (this) of a method or setter call. -/
structure MInst where
  mutex : Int
  data : JSValue

/-- A method or setter: receives this and the argument list, returns the
updated receiver and its return value. -/
abbrev MFn := MInst → List JSValue → MInst × JSValue

/-- The wrapper installed around methods and computed setters: increment
this._mutex by 1, then invoke the original with the same arguments and
receiver, passing its return value through. -/
def wrapGuard (f : MFn) : MFn := fun this args =>
  f { this with mutex := this.mutex + 1 } args

/-- An entry of the computed mapping: a plain getter function, or an object
with optional get and set members (an absent or falsy set is none). -/
inductive ComputedEntry where
  | fn (g : MFn)
  | objE (get : Option MFn) (set : Option MFn)

/-- The first forEach: only object entries with a truthy set member have
their set replaced by the wrapper. -/
def guardComputedEntry : ComputedEntry → ComputedEntry
  | .objE g (some s) => .objE g (some (wrapGuard s))
  | e => e

def guardComputed (computed : List (String × ComputedEntry)) : List (String × ComputedEntry) :=
  computed.map (fun e => (e.1, guardComputedEntry e.2))

/-- The second forEach: every method is replaced by its wrapper. -/
def guardMethods (methods : List (String × MFn)) : List (String × MFn) :=
  methods.map (fun e => (e.1, wrapGuard e.2))

/-- The watch callback of the mutation guard, acting on this._mutex: raise
on zero (unguarded mutation), raise on a negative counter (broken
invariant), otherwise consume one credit. -/
def watchCallback (name : String) (m : Int) : Except String Int :=
  if m = 0 then
    .error (name ++ " store is immutable! Updates must happen within a method or computed setter.")
  else if m < 0 then
    .error ("Somehow the mutex is off in " ++ name ++ ". This should never happen.")
  else .ok (m - 1)

/-- An event the counter observes: entry into a guarded entry point (a
wrapped method or setter), or a change notification delivered to the watch
callback. -/
inductive GuardEvent where
  | enter
  | notify
deriving DecidableEq

/-- One step of the counter: a guarded entry increments; a notification runs
the watch callback, and a raising callback leaves the counter unchanged. -/
def guardStep (name : String) (m : Int) : GuardEvent → Int
  | .enter => m + 1
  | .notify =>
    match watchCallback name m with
    | .ok m2 => m2
    | .error _ => m

/-- The counter after a sequence of events. -/
def runGuard (name : String) (m : Int) : List GuardEvent → Int
  | [] => m
  | e :: rest => runGuard name (guardStep name m e) rest

/-- Every notification in the trace finds a positive counter, so no watch
callback raises. -/
def cleanTrace (name : String) (m : Int) : List GuardEvent → Bool
  | [] => true
  | e :: rest => (if e = .notify then decide (0 < m) else true)
      && cleanTrace name (guardStep name m e) rest

def countEnter (tr : List GuardEvent) : Nat := tr.countP (fun e => e = .enter)

def countNotify (tr : List GuardEvent) : Nat := tr.countP (fun e => e = .notify)

/-!  The model factory.  Vue construction itself is external; the embedding
records everything the factory does around it: the precondition raises, the
sanitization defaults, the derived watch paths, the guard installation (with
its in-place rewrite of the caller's storeOptions) and the pre-flight
validation.  -/

structure StoreOptions where
  name : Option String
  data : JSValue
  computed : Option (List (String × ComputedEntry))
  watch : Option (List (String × MFn))
  methods : Option (List (String × MFn))
  schema : Option Schema

structure ModelOptions where
  immutable : Option Bool

structure ModelResult where
  name : String
  watchProps : List String
  guardInstalled : Bool
  mutexInit : Option Int
  storeOptionsAfter : StoreOptions

/-- Watch paths are derived only from an object-shaped schema mapping;
Object.entries of any other value the factory would realistically receive is
empty. -/
def schemaWatchProps : Option Schema → List String
  | some (.obj fields) => getWatchProperties fields
  | _ => []

/-- storeOptions.name || ANONYMOUS_MODEL: a missing or falsy name falls back
to the sentinel. -/
def modelName : Option String → String
  | some s => if s = "" then "ANONYMOUS_MODEL" else s
  | none => "ANONYMOUS_MODEL"

/-- The pre-flight check: deepTypeCheck over the full data tree, run only
when a schema was supplied and the environment is non-production. -/
def preflightCheck (isProd : Bool) (name : String) (data : JSValue) :
    Option Schema → Except String Unit
  | some sch => if !isProd then deepTypeCheck data sch [.key ("<" ++ name ++ ">")] else .ok ()
  | none => .ok ()

/-- model(storeOptions, modelOptions) under the environment flag isProd.
Returns the factory outcome, including the caller-visible state of
storeOptions after the call: the guard wraps vm.methods and the computed
setters in place, and vm.methods aliases storeOptions.methods whenever the
caller supplied one. -/
def model (isProd : Bool) (so : StoreOptions) (mo : ModelOptions) : Except String ModelResult :=
  if !truthy so.data then .error "Undefined model data."
  else if truthy (dataGet so.data "_isVue") then
    .error "Attempting to create a model from a model"
  else
    let name := modelName so.name
    let watchProps := if !isProd && so.schema.isSome then schemaWatchProps so.schema else []
    let guard := mo.immutable != some false && !isProd
    let soAfter : StoreOptions :=
      if guard then
        { so with
          computed := so.computed.map guardComputed
          methods := so.methods.map guardMethods }
      else so
    do
      preflightCheck isProd name so.data so.schema
      .ok { name := name
            watchProps := watchProps
            guardInstalled := guard
            mutexInit := if guard then some 0 else none
            storeOptionsAfter := soAfter }

/-- A sample method used to exercise the guard wrapping on concrete input. -/
def sampleFn : MFn := fun this _ => (this, .num 7)

/-- Concrete store options exercising model(): data, a computed setter and a
method. -/
def soW : StoreOptions :=
  { name := some "m"
    data := .obj [("x", .num 1)]
    computed := some [("c", .objE none (some sampleFn))]
    watch := none
    methods := some [("inc", sampleFn)]
    schema := none }

def moW : ModelOptions := { immutable := none }

/-- The factory outcome model false soW moW produces. -/
def rW : ModelResult :=
  { name := "m"
    watchProps := []
    guardInstalled := true
    mutexInit := some 0
    storeOptionsAfter :=
      { soW with
        computed := some [("c", .objE none (some (wrapGuard sampleFn)))]
        methods := some [("inc", wrapGuard sampleFn)] } }

/-!  Substring and path lemmas.  -/

@[simp] theorem exceptOkBind {α β : Type} (a : α) (f : α → Except String β) :
    (Except.ok a : Except String α) >>= f = f a := rfl

@[simp] theorem exceptErrBind {α β : Type} (e : String) (f : α → Except String β) :
    (Except.error e : Except String α) >>= f = Except.error e := rfl

theorem hasPre_self_append (n t : List Char) : hasPre n (n ++ t) = true := by
  induction n with
  | nil => rfl
  | cons c cs ih => simp [hasPre, ih]

theorem containsL_nil (hay : List Char) : containsL hay [] = true := by
  cases hay <;> simp [containsL, hasPre]

theorem containsL_mid (a b c : List Char) : containsL (a ++ (b ++ c)) b = true := by
  induction a with
  | nil =>
    cases b with
    | nil => simpa using containsL_nil c
    | cons x bs =>
      have h := hasPre_self_append (x :: bs) c
      simp only [List.cons_append] at h
      simp [containsL, h]
  | cons x as ih => simp [containsL, ih]

theorem strContains_empty (m : String) : strContains m "" = true := by
  simpa [strContains] using containsL_nil m.data

theorem strContains_mid (x s y : String) : strContains (x ++ s ++ y) s = true := by
  have h : (x ++ s ++ y).data = x.data ++ (s.data ++ y.data) := by
    simp [String.data_append]
  simpa [strContains, h] using containsL_mid x.data s.data y.data

theorem strContains_tail (x s : String) : strContains (x ++ s) s = true := by
  have := strContains_mid x s ""
  simpa using this

theorem pathStep_eq (acc : String) (seg : Seg) : pathStep acc seg = acc ++ segSuffix seg := by
  cases seg <;> simp [pathStep, segSuffix, String.append_assoc]

theorem stringifyPath_snoc (e : Seg) (p : Path) (seg : Seg) :
    stringifyPath ((e :: p) ++ [seg]) = stringifyPath (e :: p) ++ segSuffix seg := by
  simp [stringifyPath, List.foldl_append, pathStep_eq]

/-- Any message that embeds the stringified extended path contains the
stringified path itself. -/
theorem strContains_path_ext (x y : String) (p : Path) (seg : Seg) :
    strContains (x ++ stringifyPath (p ++ [seg]) ++ y) (stringifyPath p) = true := by
  cases p with
  | nil => exact strContains_empty _
  | cons e rest =>
    rw [stringifyPath_snoc]
    have h : x ++ (stringifyPath (e :: rest) ++ segSuffix seg) ++ y
        = x ++ stringifyPath (e :: rest) ++ (segSuffix seg ++ y) := by
      simp [String.append_assoc]
    rw [h]
    exact strContains_mid _ _ _

theorem strContains_path_ext_tail (x : String) (p : Path) (seg : Seg) :
    strContains (x ++ stringifyPath (p ++ [seg])) (stringifyPath p) = true := by
  have := strContains_path_ext x "" p seg
  simpa using this

/-!  Reduction helpers for the validator.  -/

theorem getProp_isObject (d : JSValue) (k : String) (h : isObject d = true) :
    getProp d k = .ok (dataGet d k) := by
  cases d <;> simp_all [isObject, getProp]

theorem getProp_defined (d : JSValue) (k : String) (h1 : isNull d = false)
    (h2 : isUndefined d = false) : getProp d k = .ok (dataGet d k) := by
  cases d <;> simp_all [isNull, isUndefined, getProp]

theorem deepTypeCheck_undefData (s : Schema) (p : Path) (h : isFalsyS s = false) :
    deepTypeCheck .undefined s p
      = .error ("undefined data property at path: " ++ stringifyPath p) := by
  cases s <;> simp_all [isFalsyS, deepTypeCheck]

/-!  Soundness of matching: a value with no spec-level mismatch passes the
validator.  The induction is on the size of the schema, with list-shaped
auxiliary lemmas taking the property at sub-schemas as a hypothesis.  -/

theorem l1ElemsLeafAux (f : Pred) (vs : List JSValue) :
    ∀ (p : Path) (i : Nat), firstMismatchElems vs (.pred f) p i = none →
      checkAllLeaf vs f p i = .ok () := by
  induction vs with
  | nil => intro p i _; simp [checkAllLeaf]
  | cons w rest ih =>
    intro p i h
    rw [firstMismatchElems] at h
    split at h
    · exact absurd h (by simp)
    · rename_i heq
      rw [specFirstMismatch] at heq
      split at heq
      · exact absurd heq (by simp)
      · split at heq
        · rename_i hfw
          simp [checkAllLeaf, typeCheck, hfw]
          exact ih _ _ h
        · exact absurd heq (by simp)

theorem l1ElemsAux (sub : Schema)
    (hsub : ∀ v q, specFirstMismatch v sub q = none → deepTypeCheck v sub q = .ok ())
    (vs : List JSValue) :
    ∀ (p : Path) (i : Nat), firstMismatchElems vs sub p i = none →
      checkAllDeep vs sub p i = .ok () := by
  induction vs with
  | nil => intro p i _; simp [checkAllDeep]
  | cons w rest ih =>
    intro p i h
    rw [firstMismatchElems] at h
    split at h
    · exact absurd h (by simp)
    · rename_i heq
      simp [checkAllDeep, hsub _ _ heq]
      exact ih _ _ h

theorem l1FieldsAux (fields : List (String × Schema)) :
    ∀ (d : JSValue) (p : Path),
      (∀ pr ∈ fields, ∀ v q, specFirstMismatch v pr.2 q = none →
        deepTypeCheck v pr.2 q = .ok ()) →
      isObject d = true →
      firstMismatchFields d fields p = none → checkFields d fields p = .ok () := by
  induction fields with
  | nil => intro d p _ _ _; simp [checkFields]
  | cons pr rest ih =>
    obtain ⟨k, sub⟩ := pr
    intro d p hmem hobj h
    rw [firstMismatchFields] at h
    split at h
    · exact absurd h (by simp)
    · rename_i heq
      have hok : deepTypeCheck (dataGet d k) sub (p ++ [.key k]) = .ok () :=
        hmem (k, sub) (by simp) _ _ heq
      have hguard : (isObjectS sub && !(isObject (dataGet d k))) = false := by
        cases sub <;> simp [isObjectS]
        rename_i sfs
        rw [specFirstMismatch] at heq
        by_contra hc
        simp at hc
        rw [if_neg (by simp [hc])] at heq
        exact absurd heq (by simp)
      rw [checkFields, getProp_isObject d k hobj]
      simp only [exceptOkBind, hguard, Bool.false_eq_true, if_false, hok]
      exact ih d p (fun q hq => hmem q (List.mem_cons_of_mem _ hq)) hobj h

theorem l1DeepAux (n : Nat) : ∀ (s : Schema), sizeOf s ≤ n →
    ∀ (d : JSValue) (p : Path),
      specFirstMismatch d s p = none → deepTypeCheck d s p = .ok () := by
  induction n with
  | zero =>
    intro s hs
    exfalso
    cases s <;> simp_all
  | succ n ih =>
    intro s hs d p h
    match s with
    | .falsy => rw [specFirstMismatch] at h; exact absurd h (by simp)
    | .pred f =>
      rw [specFirstMismatch] at h
      split at h
      · exact absurd h (by simp)
      · rename_i hU
        split at h
        · rename_i hfd
          cases d <;> simp_all [deepTypeCheck, typeCheck, isUndefined]
        · exact absurd h (by simp)
    | .arr elems =>
      cases d with
      | undefined => simp [specFirstMismatch] at h
      | null => simp [specFirstMismatch] at h
      | bool b => simp [specFirstMismatch] at h
      | num m => simp [specFirstMismatch] at h
      | str st => simp [specFirstMismatch] at h
      | obj dfs => simp [specFirstMismatch] at h
      | vueInstance nm => simp [specFirstMismatch] at h
      | arr vs =>
        cases elems with
        | nil => simp [deepTypeCheck]
        | cons sub restS =>
          simp only [specFirstMismatch] at h
          have hsz : sizeOf sub ≤ n := by
            simp only [Schema.arr.sizeOf_spec, List.cons.sizeOf_spec] at hs
            omega
          cases sub with
          | falsy =>
            simp [deepTypeCheck, isObjOrArrS, isFnS]
          | pred f =>
            simp only [deepTypeCheck, isObjOrArrS, isFnS, Bool.false_eq_true, if_false, if_true,
              predOfS]
            exact l1ElemsLeafAux f vs p 0 h
          | obj sfs =>
            simp [deepTypeCheck, isObjOrArrS]
            exact l1ElemsAux _ (fun v q => ih _ hsz v q) vs p 0 h
          | arr ses =>
            simp [deepTypeCheck, isObjOrArrS]
            exact l1ElemsAux _ (fun v q => ih _ hsz v q) vs p 0 h
    | .obj fields =>
      rw [specFirstMismatch] at h
      split at h
      · rename_i hobj
        have hmem : ∀ pr ∈ fields, ∀ v q, specFirstMismatch v pr.2 q = none →
            deepTypeCheck v pr.2 q = .ok () := by
          intro pr hpr v q
          have h1 : sizeOf pr < sizeOf fields := List.sizeOf_lt_of_mem hpr
          have h2 : sizeOf pr.2 ≤ n := by
            obtain ⟨k, sub⟩ := pr
            simp only [Schema.obj.sizeOf_spec, Prod.mk.sizeOf_spec] at h1 hs ⊢
            omega
          exact ih _ h2 v q
        cases d with
        | obj dfs =>
          simp only [deepTypeCheck]
          exact l1FieldsAux fields _ p hmem (by simp [isObject]) h
        | vueInstance nm =>
          simp only [deepTypeCheck]
          exact l1FieldsAux fields _ p hmem (by simp [isObject]) h
        | undefined => simp [isObject] at hobj
        | null => simp [isObject] at hobj
        | bool b => simp [isObject] at hobj
        | num m => simp [isObject] at hobj
        | str st => simp [isObject] at hobj
        | arr vs => simp [isObject] at hobj
      · exact absurd h (by simp)

/-- Matching soundness: no spec-level first mismatch means the validator
returns without raising. -/
theorem l1Deep (s : Schema) (d : JSValue) (p : Path)
    (h : specFirstMismatch d s p = none) : deepTypeCheck d s p = .ok () :=
  l1DeepAux (sizeOf s) s le_rfl d p h

/-!  Message-shape containment lemmas.  -/

theorem strContains_msg2 (a s b c : String) : strContains (a ++ s ++ b ++ c) s = true := by
  have := strContains_mid a s (b ++ c)
  simpa [String.append_assoc] using this

theorem strContains_path_ext2 (a b c : String) (p : Path) (seg : Seg) :
    strContains (a ++ stringifyPath (p ++ [seg]) ++ b ++ c) (stringifyPath p) = true := by
  have := strContains_path_ext a (b ++ c) p seg
  simpa [String.append_assoc] using this

/-!  Completeness of mismatch reporting: under a well-formed schema with
disciplined leaf predicates and guard-safe data, a spec-level first mismatch
makes the validator raise, and the raised message contains the stringified
mismatch path.  -/

theorem l2ElemsLeafAux (f : Pred) (hg : goodPred f) (vs : List JSValue) :
    ∀ (p : Path) (i : Nat) (q : Path),
      firstMismatchElems vs (.pred f) p i = some q →
      ∃ m, checkAllLeaf vs f p i = .error m ∧ strContains m (stringifyPath q) = true := by
  induction vs with
  | nil => intro p i q h; rw [firstMismatchElems] at h; exact absurd h (by simp)
  | cons w rest ih =>
    intro p i q h
    rw [firstMismatchElems] at h
    split at h
    · rename_i q0 heq
      have hq : q0 = q := by simpa using h
      subst hq
      rw [specFirstMismatch] at heq
      by_cases hU : isUndefined w = true
      · rw [if_pos hU] at heq
        have hq0 : p ++ [.idx i] = q0 := by simpa using heq
        subst hq0
        rcases hg w (p ++ [.idx i]) with ⟨b, hfb, hbu⟩ | ⟨m, hfm, hcon⟩
        · have hb : b = false := hbu hU
          subst hb
          have hrun : checkAllLeaf (w :: rest) f p i
              = .error ("check failed for data property at path "
                ++ stringifyPath (p ++ [.idx i]) ++ ". Got: " ++ jsonStringify w) := by
            simp [checkAllLeaf, typeCheck, hfb]
          exact ⟨_, hrun, strContains_msg2 _ _ _ _⟩
        · refine ⟨m, ?_, hcon⟩
          simp [checkAllLeaf, typeCheck, hfm]
      · rw [if_neg hU] at heq
        split at heq
        · exact absurd heq (by simp)
        · rename_i hnotTrue
          have hq0 : p ++ [.idx i] = q0 := by simpa using heq
          subst hq0
          cases hres : f w (p ++ [.idx i]) with
          | ok b =>
            cases b with
            | true => exact absurd hres hnotTrue
            | false =>
              have hrun : checkAllLeaf (w :: rest) f p i
                  = .error ("check failed for data property at path "
                    ++ stringifyPath (p ++ [.idx i]) ++ ". Got: " ++ jsonStringify w) := by
                simp [checkAllLeaf, typeCheck, hres]
              exact ⟨_, hrun, strContains_msg2 _ _ _ _⟩
          | error m =>
            rcases hg w (p ++ [.idx i]) with ⟨b, hfb, _⟩ | ⟨m2, hfm, hcon⟩
            · rw [hres] at hfb; exact absurd hfb (by simp)
            · rw [hres] at hfm
              have hm : m2 = m := by simpa using hfm.symm
              subst hm
              refine ⟨m2, ?_, hcon⟩
              simp [checkAllLeaf, typeCheck, hres]
    · rename_i heq
      rw [specFirstMismatch] at heq
      split at heq
      · exact absurd heq (by simp)
      · split at heq
        · rename_i hfw
          rename_i hU
          obtain ⟨m, hm, hc⟩ := ih p (i + 1) q h
          refine ⟨m, ?_, hc⟩
          simp [checkAllLeaf, typeCheck, hfw, hm]
        · exact absurd heq (by simp)

theorem l2ElemsDeepAux (sub : Schema)
    (hsubErr : ∀ v r t, specFirstMismatch v sub r = some t → safeFor v sub = true →
      ∃ m, deepTypeCheck v sub r = .error m ∧ strContains m (stringifyPath t) = true)
    (vs : List JSValue) :
    ∀ (p : Path) (i : Nat) (q : Path), safeElems vs sub = true →
      firstMismatchElems vs sub p i = some q →
      ∃ m, checkAllDeep vs sub p i = .error m ∧ strContains m (stringifyPath q) = true := by
  induction vs with
  | nil => intro p i q _ h; rw [firstMismatchElems] at h; exact absurd h (by simp)
  | cons w rest ih =>
    intro p i q hsafe h
    have hsw : safeFor w sub = true := by
      simp [safeElems] at hsafe
      exact hsafe.1
    have hsr : safeElems rest sub = true := by
      simp [safeElems] at hsafe
      exact hsafe.2
    rw [firstMismatchElems] at h
    split at h
    · rename_i q0 heq
      have hq : q0 = q := by simpa using h
      subst hq
      obtain ⟨m, hm, hc⟩ := hsubErr w (p ++ [.idx i]) q0 heq hsw
      refine ⟨m, ?_, hc⟩
      simp [checkAllDeep, hm]
    · rename_i heq
      obtain ⟨m, hm, hc⟩ := ih p (i + 1) q hsr h
      refine ⟨m, ?_, hc⟩
      simp [checkAllDeep, l1Deep sub w (p ++ [.idx i]) heq, hm]

theorem l2FieldsAux (fields : List (String × Schema)) :
    ∀ (d : JSValue) (p : Path) (q : Path),
      (∀ pr ∈ fields, ∀ v r t, wellFormed pr.2 = true → allPreds pr.2 →
        safeFor v pr.2 = true → specFirstMismatch v pr.2 r = some t →
        ∃ m, deepTypeCheck v pr.2 r = .error m ∧ strContains m (stringifyPath t) = true) →
      isObject d = true → wfFields fields = true → allPredsF fields →
      safeFields d fields = true →
      firstMismatchFields d fields p = some q →
      ∃ m, checkFields d fields p = .error m ∧ strContains m (stringifyPath q) = true := by
  induction fields with
  | nil => intro d p q _ _ _ _ _ h; rw [firstMismatchFields] at h; exact absurd h (by simp)
  | cons pr rest ih =>
    obtain ⟨k, sub⟩ := pr
    intro d p q hmem hobj hwf hgp hsafe h
    have hwfs : wellFormed sub = true := by
      simp [wfFields] at hwf
      exact hwf.1
    have hwfr : wfFields rest = true := by
      simp [wfFields] at hwf
      exact hwf.2
    have hgps : allPreds sub := by
      rw [allPredsF] at hgp
      exact hgp.1
    have hgpr : allPredsF rest := by
      rw [allPredsF] at hgp
      exact hgp.2
    rw [safeFields, Bool.and_eq_true] at hsafe
    obtain ⟨hsafes, hsafer⟩ := hsafe
    rw [firstMismatchFields] at h
    split at h
    · rename_i q0 heq
      have hq : q0 = q := by simpa using h
      subst hq
      by_cases hguard : (isObjectS sub && !(isObject (dataGet d k))) = true
      · have hsubObj : ∃ sfs, sub = .obj sfs := by
          cases sub <;> simp_all [isObjectS]
        obtain ⟨sfs, rfl⟩ := hsubObj
        have hvk : isObject (dataGet d k) = false := by
          simp [isObjectS] at hguard
          exact hguard
        rw [specFirstMismatch, if_neg (by simp [hvk])] at heq
        have hq0 : p ++ [.key k] = q0 := by simpa using heq
        subst hq0
        have hrun : checkFields d ((k, Schema.obj sfs) :: rest) p
            = .error ("expected object for data property at path "
              ++ stringifyPath (p ++ [.key k]) ++ ", Got: " ++ jsonStringify (dataGet d k)) := by
          rw [checkFields, getProp_isObject d k hobj]
          simp only [exceptOkBind]
          rw [if_pos hguard]
        exact ⟨_, hrun, strContains_msg2 _ _ _ _⟩
      · have hsafesub : safeFor (dataGet d k) sub = true := by
          rw [if_neg hguard] at hsafes
          exact hsafes
        obtain ⟨m, hm, hc⟩ := hmem (k, sub) (by simp) (dataGet d k) (p ++ [.key k]) q0
          hwfs hgps hsafesub heq
        refine ⟨m, ?_, hc⟩
        simp only [checkFields, getProp_isObject d k hobj, exceptOkBind]
        rw [if_neg hguard]
        simp [hm]
    · rename_i heq
      have hguard : (isObjectS sub && !(isObject (dataGet d k))) = false := by
        cases sub <;> simp [isObjectS]
        rename_i sfs
        rw [specFirstMismatch] at heq
        by_contra hc
        simp at hc
        rw [if_neg (by simp [hc])] at heq
        exact absurd heq (by simp)
      obtain ⟨m, hm, hc⟩ := ih d p q
        (fun pr hpr => hmem pr (List.mem_cons_of_mem _ hpr)) hobj hwfr hgpr hsafer h
      refine ⟨m, ?_, hc⟩
      simp only [checkFields, getProp_isObject d k hobj, exceptOkBind]
      rw [if_neg (by simp [hguard])]
      simp [l1Deep sub (dataGet d k) (p ++ [.key k]) heq, hm]

/-!  Per-shape reductions of deepTypeCheck.  -/

theorem deepTypeCheck_pred (d : JSValue) (f : Pred) (p : Path) (h : isUndefined d = false) :
    deepTypeCheck d (.pred f) p = typeCheck d f p := by
  cases d <;> simp_all [isUndefined, deepTypeCheck]

theorem deepTypeCheck_obj (d : JSValue) (fields : List (String × Schema)) (p : Path)
    (h : isUndefined d = false) : deepTypeCheck d (.obj fields) p = checkFields d fields p := by
  cases d <;> simp_all [isUndefined, deepTypeCheck]

theorem deepTypeCheck_arr_mismatch (d : JSValue) (elems : List Schema) (p : Path)
    (hu : isUndefined d = false) (ha : isArray d = false) :
    deepTypeCheck d (.arr elems) p = .error ("expected array for data property at path "
      ++ stringifyPath p ++ ", Got: " ++ jsonStringify d) := by
  cases d <;> simp_all [isUndefined, isArray, deepTypeCheck]

theorem deepTypeCheck_arr_deep (vs : List JSValue) (sub : Schema) (restS : List Schema)
    (p : Path) (h : isObjOrArrS sub = true) :
    deepTypeCheck (.arr vs) (.arr (sub :: restS)) p = checkAllDeep vs sub p 0 := by
  simp [deepTypeCheck, h]

theorem deepTypeCheck_arr_leaf (vs : List JSValue) (f : Pred) (restS : List Schema) (p : Path) :
    deepTypeCheck (.arr vs) (.arr (.pred f :: restS)) p = checkAllLeaf vs f p 0 := by
  simp [deepTypeCheck, isObjOrArrS, isFnS, predOfS]

/-- Completeness of mismatch reporting for the validator, by induction on
schema size. -/
theorem l2DeepAux (n : Nat) : ∀ (s : Schema), sizeOf s ≤ n →
    ∀ (d : JSValue) (p q : Path), wellFormed s = true → allPreds s → safeFor d s = true →
      specFirstMismatch d s p = some q →
      ∃ m, deepTypeCheck d s p = .error m ∧ strContains m (stringifyPath q) = true := by
  induction n with
  | zero =>
    intro s hs
    exfalso
    cases s <;> simp_all
  | succ n ih =>
    intro s hs d p q hwf hgp hsf h
    match s with
    | .falsy => simp [wellFormed] at hwf
    | .pred f =>
      have hg : goodPred f := by rw [allPreds] at hgp; exact hgp
      rw [specFirstMismatch] at h
      split at h
      · rename_i hU
        have hq : p = q := by simpa using h
        subst hq
        cases d with
        | undefined =>
          exact ⟨_, deepTypeCheck_undefData _ p (by simp [isFalsyS]), strContains_tail _ _⟩
        | null => simp [isUndefined] at hU
        | bool b => simp [isUndefined] at hU
        | num m => simp [isUndefined] at hU
        | str st => simp [isUndefined] at hU
        | obj dfs => simp [isUndefined] at hU
        | arr vs => simp [isUndefined] at hU
        | vueInstance nm => simp [isUndefined] at hU
      · rename_i hU
        have hUf : isUndefined d = false := by
          by_contra hc
          simp at hc
          exact hU hc
        split at h
        · exact absurd h (by simp)
        · rename_i hnotTrue
          have hq : p = q := by simpa using h
          subst hq
          rw [deepTypeCheck_pred d f p hUf]
          cases hres : f d p with
          | ok b =>
            cases b with
            | true => exact absurd hres hnotTrue
            | false =>
              have hrun : typeCheck d f p
                  = .error ("check failed for data property at path "
                    ++ stringifyPath p ++ ". Got: " ++ jsonStringify d) := by
                simp [typeCheck, hres]
              exact ⟨_, hrun, strContains_msg2 _ _ _ _⟩
          | error m =>
            rcases hg d p with ⟨b, hfb, _⟩ | ⟨m2, hfm, hcon⟩
            · rw [hres] at hfb; exact absurd hfb (by simp)
            · rw [hres] at hfm
              have hm : m2 = m := by simpa using hfm.symm
              subst hm
              refine ⟨m2, ?_, hcon⟩
              simp [typeCheck, hres]
    | .arr elems =>
      cases d with
      | undefined =>
        have hq : p = q := by simpa [specFirstMismatch] using h
        subst hq
        exact ⟨_, deepTypeCheck_undefData _ p (by simp [isFalsyS]), strContains_tail _ _⟩
      | arr vs =>
        cases elems with
        | nil =>
          rw [specFirstMismatch] at h
          exact absurd h (by simp)
        | cons sub restS =>
          simp only [specFirstMismatch] at h
          have hsz : sizeOf sub ≤ n := by
            simp only [Schema.arr.sizeOf_spec, List.cons.sizeOf_spec] at hs
            omega
          have hwfs : wellFormed sub = true := by
            rw [wellFormed, wfElems, Bool.and_eq_true] at hwf
            exact hwf.1
          have hgps : allPreds sub := by
            rw [allPreds, allPredsE] at hgp
            exact hgp.1
          have hse : safeElems vs sub = true := by
            simpa [safeFor] using hsf
          cases sub with
          | falsy => simp [wellFormed] at hwfs
          | pred f =>
            have hg : goodPred f := by rw [allPreds] at hgps; exact hgps
            obtain ⟨m, hm, hc⟩ := l2ElemsLeafAux f hg vs p 0 q h
            exact ⟨m, by rw [deepTypeCheck_arr_leaf, hm], hc⟩
          | obj sfs =>
            obtain ⟨m, hm, hc⟩ := l2ElemsDeepAux _
              (fun v r t hsm hsafe => ih _ hsz v r t hwfs hgps hsafe hsm) vs p 0 q hse h
            exact ⟨m, by rw [deepTypeCheck_arr_deep _ _ _ _ (by simp [isObjOrArrS]), hm], hc⟩
          | arr ses =>
            obtain ⟨m, hm, hc⟩ := l2ElemsDeepAux _
              (fun v r t hsm hsafe => ih _ hsz v r t hwfs hgps hsafe hsm) vs p 0 q hse h
            exact ⟨m, by rw [deepTypeCheck_arr_deep _ _ _ _ (by simp [isObjOrArrS]), hm], hc⟩
      | null =>
        have hq : p = q := by simpa [specFirstMismatch] using h
        subst hq
        exact ⟨_, deepTypeCheck_arr_mismatch _ elems p (by simp [isUndefined]) (by simp [isArray]),
          strContains_msg2 _ _ _ _⟩
      | bool b =>
        have hq : p = q := by simpa [specFirstMismatch] using h
        subst hq
        exact ⟨_, deepTypeCheck_arr_mismatch _ elems p (by simp [isUndefined]) (by simp [isArray]),
          strContains_msg2 _ _ _ _⟩
      | num m0 =>
        have hq : p = q := by simpa [specFirstMismatch] using h
        subst hq
        exact ⟨_, deepTypeCheck_arr_mismatch _ elems p (by simp [isUndefined]) (by simp [isArray]),
          strContains_msg2 _ _ _ _⟩
      | str st =>
        have hq : p = q := by simpa [specFirstMismatch] using h
        subst hq
        exact ⟨_, deepTypeCheck_arr_mismatch _ elems p (by simp [isUndefined]) (by simp [isArray]),
          strContains_msg2 _ _ _ _⟩
      | obj dfs =>
        have hq : p = q := by simpa [specFirstMismatch] using h
        subst hq
        exact ⟨_, deepTypeCheck_arr_mismatch _ elems p (by simp [isUndefined]) (by simp [isArray]),
          strContains_msg2 _ _ _ _⟩
      | vueInstance nm =>
        have hq : p = q := by simpa [specFirstMismatch] using h
        subst hq
        exact ⟨_, deepTypeCheck_arr_mismatch _ elems p (by simp [isUndefined]) (by simp [isArray]),
          strContains_msg2 _ _ _ _⟩
    | .obj fields =>
      have hwff : wfFields fields = true := by rw [wellFormed] at hwf; exact hwf
      have hgpf : allPredsF fields := by rw [allPreds] at hgp; exact hgp
      have hmem : ∀ pr ∈ fields, ∀ v r t, wellFormed pr.2 = true → allPreds pr.2 →
          safeFor v pr.2 = true → specFirstMismatch v pr.2 r = some t →
          ∃ m, deepTypeCheck v pr.2 r = .error m ∧ strContains m (stringifyPath t) = true := by
        intro pr hpr v r t hw hg hsafe hsm
        have h1 : sizeOf pr < sizeOf fields := List.sizeOf_lt_of_mem hpr
        have h2 : sizeOf pr.2 ≤ n := by
          obtain ⟨k, sub⟩ := pr
          simp only [Schema.obj.sizeOf_spec, Prod.mk.sizeOf_spec] at h1 hs ⊢
          omega
        exact ih _ h2 v r t hw hg hsafe hsm
      rw [specFirstMismatch] at h
      split at h
      · rename_i hobj
        cases d with
        | obj dfs =>
          have hsff : safeFields (.obj dfs) fields = true := by simpa [safeFor] using hsf
          obtain ⟨m, hm, hc⟩ := l2FieldsAux fields _ p q hmem hobj hwff hgpf hsff h
          exact ⟨m, by rw [deepTypeCheck_obj _ _ _ (by simp [isUndefined]), hm], hc⟩
        | vueInstance nm => simp [safeFor] at hsf
        | undefined => simp [isObject] at hobj
        | null => simp [isObject] at hobj
        | bool b => simp [isObject] at hobj
        | num m0 => simp [isObject] at hobj
        | str st => simp [isObject] at hobj
        | arr vs => simp [isObject] at hobj
      · rename_i hobj
        have hq : p = q := by simpa using h
        subst hq
        cases d with
        | undefined =>
          exact ⟨_, deepTypeCheck_undefData _ p (by simp [isFalsyS]), strContains_tail _ _⟩
        | null => simp [safeFor] at hsf
        | obj dfs => simp [isObject] at hobj
        | vueInstance nm => simp [isObject] at hobj
        | bool b => simp [safeFor] at hsf
        | num m0 => simp [safeFor] at hsf
        | str st => simp [safeFor] at hsf
        | arr vs => simp [safeFor] at hsf

/-- Completeness of mismatch reporting: under a well-formed schema,
disciplined leaf predicates and guard-safe data, the validator raises on a
spec-level first mismatch and its message contains the stringified mismatch
path. -/
theorem l2Deep (s : Schema) (d : JSValue) (p q : Path) (hwf : wellFormed s = true)
    (hgp : allPreds s) (hsf : safeFor d s = true)
    (h : specFirstMismatch d s p = some q) :
    ∃ m, deepTypeCheck d s p = .error m ∧ strContains m (stringifyPath q) = true :=
  l2DeepAux (sizeOf s) s le_rfl d p q hwf hgp hsf h

/-!  Counter lemmas for the mutation guard.  -/

theorem runGuard_nonneg (name : String) : ∀ (tr : List GuardEvent) (m : Int),
    0 ≤ m → 0 ≤ runGuard name m tr := by
  intro tr
  induction tr with
  | nil => intro m h; simpa [runGuard] using h
  | cons e rest ih =>
    intro m h
    rw [runGuard]
    apply ih
    cases e with
    | enter => simp [guardStep]; omega
    | notify =>
      simp only [guardStep, watchCallback]
      by_cases h0 : m = 0
      · simp [h0]
      · by_cases hneg : m < 0
        · rw [if_neg h0, if_pos hneg]
          exact h
        · rw [if_neg h0, if_neg hneg]
          show (0 : Int) ≤ m - 1
          omega

theorem runGuard_clean (name : String) : ∀ (tr : List GuardEvent) (m : Int),
    cleanTrace name m tr = true →
    runGuard name m tr = m + countEnter tr - countNotify tr := by
  intro tr
  induction tr with
  | nil => intro m _; simp [runGuard, countEnter, countNotify]
  | cons e rest ih =>
    intro m hclean
    rw [cleanTrace, Bool.and_eq_true] at hclean
    obtain ⟨h1, h2⟩ := hclean
    rw [runGuard, ih _ h2]
    cases e with
    | enter =>
      simp only [guardStep, countEnter, countNotify, List.countP_cons]
      simp
      omega
    | notify =>
      have hpos : 0 < m := by
        simp at h1
        exact h1
      simp only [guardStep, watchCallback]
      rw [if_neg (by omega), if_neg (by omega)]
      simp only [countEnter, countNotify, List.countP_cons]
      simp
      omega

/-!  gwpGo agrees with the specification-worded watch-path derivation.  -/

theorem gwpGo_eq_aux (n : Nat) : ∀ (fields : List (String × Schema)), sizeOf fields ≤ n →
    ∀ (path : List String) (acc : List String),
      gwpGo path fields acc = acc ++ specWatchPaths path fields := by
  induction n with
  | zero =>
    intro fields hs
    exfalso
    cases fields <;> simp_all
  | succ n ih =>
    intro fields hs path acc
    cases fields with
    | nil => simp [gwpGo, specWatchPaths]
    | cons pr rest =>
      obtain ⟨key, val⟩ := pr
      have hrest : sizeOf rest ≤ n := by
        simp only [List.cons.sizeOf_spec, Prod.mk.sizeOf_spec] at hs
        omega
      cases val with
      | obj fs2 =>
        have hfs2 : sizeOf fs2 ≤ n := by
          simp only [List.cons.sizeOf_spec, Prod.mk.sizeOf_spec, Schema.obj.sizeOf_spec] at hs
          omega
        rw [gwpGo, ih rest hrest, ih fs2 hfs2, specWatchPaths]
        simp
      | falsy =>
        rw [gwpGo, ih rest hrest, specWatchPaths] <;> simp
      | pred f =>
        rw [gwpGo, ih rest hrest, specWatchPaths] <;> simp
      | arr es =>
        rw [gwpGo, ih rest hrest, specWatchPaths] <;> simp

theorem gwpGo_eq (fields : List (String × Schema)) (path : List String) (acc : List String) :
    gwpGo path fields acc = acc ++ specWatchPaths path fields :=
  gwpGo_eq_aux (sizeOf fields) fields le_rfl path acc

/-!  Helper facts for the claim witnesses and the factory claims.  -/

theorem goodPred_typesString : goodPred typesString := by
  intro v p
  refine Or.inl ⟨_, rfl, ?_⟩
  cases v <;> simp [typesString, isUndefined]

theorem goodPred_typesNumber : goodPred typesNumber := by
  intro v p
  refine Or.inl ⟨_, rfl, ?_⟩
  cases v <;> simp [typesNumber, isUndefined]

theorem lookup_guardMethods : ∀ (ms : List (String × MFn)) (k : String) (f : MFn),
    List.lookup k ms = some f → List.lookup k (guardMethods ms) = some (wrapGuard f) := by
  intro ms
  induction ms with
  | nil => intro k f h; simp [List.lookup] at h
  | cons pr rest ih =>
    obtain ⟨a, b⟩ := pr
    intro k f h
    rw [List.lookup] at h
    cases hk : k == a with
    | true =>
      rw [hk] at h
      have hb : b = f := by simpa using h
      subst hb
      simp [guardMethods, List.lookup, hk]
    | false =>
      rw [hk] at h
      have hb : List.lookup k rest = some f := by simpa using h
      have := ih k f hb
      simpa [guardMethods, List.lookup, hk] using this

theorem lookup_guardComputed : ∀ (cs : List (String × ComputedEntry)) (k : String)
    (e : ComputedEntry), List.lookup k cs = some e →
    List.lookup k (guardComputed cs) = some (guardComputedEntry e) := by
  intro cs
  induction cs with
  | nil => intro k e h; simp [List.lookup] at h
  | cons pr rest ih =>
    obtain ⟨a, b⟩ := pr
    intro k e h
    rw [List.lookup] at h
    cases hk : k == a with
    | true =>
      rw [hk] at h
      have hb : b = e := by simpa using h
      subst hb
      simp [guardComputed, List.lookup, hk]
    | false =>
      rw [hk] at h
      have hb : List.lookup k rest = some e := by simpa using h
      have := ih k e hb
      simpa [guardComputed, List.lookup, hk] using this

theorem checkFields_append_ok (d : JSValue) :
    ∀ (pre rest2 : List (String × Schema)) (p : Path),
      checkFields d pre p = .ok () →
      checkFields d (pre ++ rest2) p = checkFields d rest2 p := by
  intro pre
  induction pre with
  | nil => intro rest2 p _; simp
  | cons pr pre2 ih =>
    obtain ⟨k, sub⟩ := pr
    intro rest2 p hok
    rw [checkFields] at hok
    rw [List.cons_append, checkFields]
    cases hg : getProp d k with
    | error e =>
      rw [hg] at hok
      simp at hok
    | ok vk =>
      rw [hg] at hok
      simp only [exceptOkBind] at hok ⊢
      by_cases hguard : (isObjectS sub && !(isObject vk)) = true
      · rw [if_pos hguard] at hok
        simp at hok
      · rw [if_neg hguard] at hok ⊢
        cases hd : deepTypeCheck vk sub (p ++ [.key k]) with
        | error e =>
          rw [hd] at hok
          simp at hok
        | ok u =>
          cases u
          rw [hd] at hok
          simp only [exceptOkBind] at hok ⊢
          exact ih rest2 p hok

/-- Extracting the factory outcome when the guard is enabled. -/
theorem model_ok_guard (isProd : Bool) (so : StoreOptions) (mo : ModelOptions)
    (r : ModelResult) (hm : model isProd so mo = .ok r)
    (him : mo.immutable ≠ some false) (hp : isProd = false) :
    r.storeOptionsAfter = { so with computed := so.computed.map guardComputed,
                                    methods := so.methods.map guardMethods }
    ∧ r.mutexInit = some 0 ∧ r.guardInstalled = true := by
  subst hp
  have hg : (mo.immutable != some false) = true := by
    cases hmo : mo.immutable with
    | none => simp
    | some b =>
      cases b with
      | false => exact absurd hmo him
      | true => simp
  rw [model] at hm
  split at hm
  · simp at hm
  · split at hm
    · simp at hm
    · simp only [hg, Bool.not_false, Bool.and_self, if_true, Bool.true_and] at hm
      cases hpf : preflightCheck false (modelName so.name) so.data so.schema with
      | error e =>
        rw [hpf] at hm
        simp at hm
      | ok u =>
        rw [hpf] at hm
        simp only [exceptOkBind] at hm
        cases u
        injection hm with h2
        rw [← h2]
        exact ⟨rfl, rfl, rfl⟩

/-!  The claims.  -/

/-- Claim C1, counterexample: the claim as stated is false.  The schema
mapping a to the library predicate enum(undefined) is well-formed, and the
data holding undefined at a structurally matches it in the sense of the
claim (the leaf value, undefined, satisfies its leaf predicate; the object
node meets an object), yet deepTypeCheck raises the undefined-data-property
error. -/
theorem claim1_counterexample :
    wellFormed (.obj [("a", .pred (typesEnum [.undefined]))]) = true
    ∧ specMatches (.obj [("a", .undefined)])
        (.obj [("a", .pred (typesEnum [.undefined]))]) [.key "<m>"] = true
    ∧ deepTypeCheck (.obj [("a", .undefined)])
        (.obj [("a", .pred (typesEnum [.undefined]))]) [.key "<m>"]
        = .error "undefined data property at path: <m>.a" := by
  refine ⟨by simp [wellFormed, wfFields], ?_, ?_⟩
  · simp [specMatches, specMatchesFields, typesEnum, dataGet, lookupField, jsStrictEq, isObject]
  · simp [deepTypeCheck, checkFields, getProp, dataGet, lookupField, isObjectS, isObject,
      stringifyPath, pathStep, segHead]

/-- Claim C1 (amended): for every schema and every data value with no
spec-level first mismatch — i.e. every leaf value is defined and satisfies
its leaf predicate, every object-shaped schema node meets an object value,
every array schema node meets an array value whose elements match the
element sub-schema — deepTypeCheck returns without raising; data keys absent
from the schema are never examined and cannot cause a raise (the matching
relation never inspects them). -/
theorem claim1_matching_no_raise (s : Schema) (d : JSValue) (p : Path)
    (h : specFirstMismatch d s p = none) : deepTypeCheck d s p = .ok () :=
  l1Deep s d p h

/-- Claim C1 witness: data with an extra key absent from the schema (holding
a value no schema node would accept) matches and validates without raising. -/
theorem claim1_matching_no_raise_witness :
    specFirstMismatch (.obj [("x", .num 1), ("extra", .arr [.null])])
      (.obj [("x", .pred typesNumber)]) [.key "<m>"] = none
    ∧ deepTypeCheck (.obj [("x", .num 1), ("extra", .arr [.null])])
      (.obj [("x", .pred typesNumber)]) [.key "<m>"] = .ok () :=
  ⟨by simp [specFirstMismatch, firstMismatchFields, typesNumber, dataGet, lookupField, isObject,
      isUndefined],
   claim1_matching_no_raise _ _ _
     (by simp [specFirstMismatch, firstMismatchFields, typesNumber, dataGet, lookupField,
       isObject, isUndefined])⟩

/-- Claim C2, counterexample: the claim as stated is false.  The empty
object schema node is well-formed, the number 5 mismatches it (an
object-shaped schema node must meet an object value), yet deepTypeCheck
returns without raising any error at all. -/
theorem claim2_counterexample :
    wellFormed (.obj []) = true
    ∧ specMatches (.num 5) (.obj []) [.key "<m>"] = false
    ∧ specFirstMismatch (.num 5) (.obj []) [.key "<m>"] = some [.key "<m>"]
    ∧ deepTypeCheck (.num 5) (.obj []) [.key "<m>"] = .ok () := by
  refine ⟨by simp [wellFormed, wfFields], ?_, ?_, ?_⟩
  · simp [specMatches, isObject]
  · simp [specFirstMismatch, isObject]
  · simp [deepTypeCheck, checkFields]

/-- Claim C2 (amended): for every well-formed schema whose leaf predicates
are disciplined (each returns a boolean, false on undefined values, or
raises an error embedding its path) and whose object-shaped nodes use no
key colliding with an inherited Object.prototype member, and every
instance-free, guard-safe data value — no constructed model instance
anywhere in the tree (its circular structure would make the serialized
snapshot in the message throw instead), and every object-shaped schema
node reached outside the parent-key guard meets a plain object or
undefined, so each property the traversal reads is an own data property or
a genuine undefined miss — if the data has a first mismatch at path q in
depth-first schema-key order then deepTypeCheck raises exactly one error —
the Except result is a single error, with no aggregation — and the raised
message contains the stringified form of q. -/
theorem claim2_first_mismatch_raise (s : Schema) (d : JSValue) (p q : Path)
    (hwf : wellFormed s = true) (hgp : allPreds s) (_hpk : protoFree s = true)
    (_hni : noInstances d = true) (hsf : safeFor d s = true)
    (h : specFirstMismatch d s p = some q) :
    ∃ m, deepTypeCheck d s p = .error m ∧ strContains m (stringifyPath q) = true :=
  l2Deep s d p q hwf hgp hsf h

/-- Claim C2 witness: a wrong-typed leaf raises the check-failed error and
the message embeds the stringified mismatch path. -/
theorem claim2_first_mismatch_raise_witness :
    wellFormed (.obj [("a", .pred typesString)]) = true
    ∧ protoFree (.obj [("a", .pred typesString)]) = true
    ∧ noInstances (.obj [("a", .num 3)]) = true
    ∧ safeFor (.obj [("a", .num 3)]) (.obj [("a", .pred typesString)]) = true
    ∧ specFirstMismatch (.obj [("a", .num 3)]) (.obj [("a", .pred typesString)]) [.key "<m>"]
        = some [.key "<m>", .key "a"]
    ∧ ∃ m, deepTypeCheck (.obj [("a", .num 3)]) (.obj [("a", .pred typesString)]) [.key "<m>"]
        = .error m ∧ strContains m (stringifyPath [.key "<m>", .key "a"]) = true :=
  ⟨by simp [wellFormed, wfFields],
   by simp [protoFree, protoFreeFields, protoMemberNames],
   by simp [noInstances, noInstancesFields],
   by simp [safeFor, safeFields, dataGet, lookupField, isObjectS],
   by simp [specFirstMismatch, firstMismatchFields, typesString, dataGet, lookupField, isObject,
     isUndefined],
   claim2_first_mismatch_raise _ _ _ _
     (by simp [wellFormed, wfFields])
     (by
       simp only [allPreds, allPredsF]
       exact ⟨goodPred_typesString, trivial⟩)
     (by simp [protoFree, protoFreeFields, protoMemberNames])
     (by simp [noInstances, noInstancesFields])
     (by simp [safeFor, safeFields, dataGet, lookupField, isObjectS])
     (by simp [specFirstMismatch, firstMismatchFields, typesString, dataGet, lookupField,
       isObject, isUndefined])⟩

/-- Claim C3: in an object-shaped schema node, when the keys before k all
validate and the sub-schema at k is itself object-shaped while the data
value at k is not object-shaped (null, undefined, an array, or a primitive),
deepTypeCheck raises the expected-object error for the path extended by k —
whatever the contents of the sub-schema and of deeper data, so the raise
happens before any recursion into the subtree at k, null is never passed to
a leaf predicate there, and undefined yields the expected-object error
rather than the undefined-data-property error. -/
theorem claim3_expected_object_guard (d : JSValue) (p : Path)
    (pre rest subfields : List (String × Schema)) (k : String)
    (hU : isUndefined d = false) (hN : isNull d = false)
    (hpre : checkFields d pre p = .ok ())
    (hvk : isObject (dataGet d k) = false) :
    deepTypeCheck d (.obj (pre ++ (k, .obj subfields) :: rest)) p
      = .error ("expected object for data property at path "
        ++ stringifyPath (p ++ [.key k]) ++ ", Got: " ++ jsonStringify (dataGet d k)) := by
  rw [deepTypeCheck_obj d _ p hU, checkFields_append_ok d pre _ p hpre, checkFields,
    getProp_defined d k hN hU]
  simp only [exceptOkBind]
  rw [if_pos (by simp [isObjectS, hvk])]

/-- Claim C3 witness: a null value under an object-shaped sub-schema raises
the expected-object error at the extended path before any recursion. -/
theorem claim3_expected_object_guard_witness :
    isObject (dataGet (.obj [("a", .null)]) "a") = false
    ∧ deepTypeCheck (.obj [("a", .null)])
        (.obj [("a", .obj [("b", .pred typesString)])]) [.key "<m>"]
      = .error "expected object for data property at path <m>.a, Got: null" := by
  constructor
  · simp [dataGet, lookupField, isObject]
  · have h := claim3_expected_object_guard (.obj [("a", .null)]) [.key "<m>"]
      [] [] [("b", .pred typesString)] "a"
      (by simp [isUndefined]) (by simp [isNull])
      (by simp [checkFields])
      (by simp [dataGet, lookupField, isObject])
    simp only [List.nil_append] at h
    rw [h]
    simp [dataGet, lookupField, stringifyPath, pathStep, segHead, jsonStringify]

/-- Claim C4: getWatchProperties traverses the schema mapping depth-first in
key order, recursing into plain object-shaped sub-schemas (which contribute
no path of their own) while every other value — a predicate or an array node
of any shape — produces exactly one dot-joined path and is not descended
into; this traversal is captured by the specification-worded derivation
specWatchPaths, and on the schema of the claim it yields exactly
a.b, c, e in that order. -/
theorem claim4_watch_paths :
    (∀ fields : List (String × Schema), wfFields fields = true →
      getWatchProperties fields = specWatchPaths [] fields)
    ∧ getWatchProperties
        [("a", .obj [("b", .pred typesString)]),
         ("c", .arr [.obj [("d", .pred typesString)]]),
         ("e", .pred typesString)] = ["a.b", "c", "e"] := by
  constructor
  · intro fields _
    exact gwpGo_eq fields [] []
  · simp [getWatchProperties, gwpGo]
    decide

/-- Claim C4 witness: the traversal characterization applied to a concrete
well-formed mapping. -/
theorem claim4_watch_paths_witness :
    wfFields [("a", .obj [("b", .pred typesString)])] = true
    ∧ getWatchProperties [("a", .obj [("b", .pred typesString)])]
        = specWatchPaths [] [("a", .obj [("b", .pred typesString)])] :=
  ⟨by simp [wfFields, wellFormed],
   claim4_watch_paths.1 _ (by simp [wfFields, wellFormed])⟩

/-- Claim C5: from a counter initialized to 0, under any interleaving of
guarded entry points (each incrementing by 1) and watch-callback
notifications (each decrementing by 1 only at a positive counter, raising
without decrementing otherwise), the counter never becomes negative; and
whenever a trace contains equally many guarded entries and non-raising
notifications — including the two-overlapping-async-calls interleaving —
the counter is back at 0 afterwards. -/
theorem claim5_counter_invariant :
    (∀ (name : String) (tr : List GuardEvent), 0 ≤ runGuard name 0 tr)
    ∧ (∀ (name : String) (tr : List GuardEvent), cleanTrace name 0 tr = true →
        countEnter tr = countNotify tr → runGuard name 0 tr = 0) := by
  constructor
  · intro name tr
    exact runGuard_nonneg name tr 0 le_rfl
  · intro name tr hclean hcount
    rw [runGuard_clean name tr 0 hclean, hcount]
    omega

/-- Claim C5 witness: the two-overlapping-async-calls interleaving — two
guarded entries, then two notifications — is clean, balanced, and ends with
the counter at 0. -/
theorem claim5_counter_invariant_witness :
    cleanTrace "m" 0 [.enter, .enter, .notify, .notify] = true
    ∧ countEnter [GuardEvent.enter, .enter, .notify, .notify]
        = countNotify [GuardEvent.enter, .enter, .notify, .notify]
    ∧ runGuard "m" 0 [.enter, .enter, .notify, .notify] = 0 :=
  ⟨by decide, by decide,
   claim5_counter_invariant.2 "m" [.enter, .enter, .notify, .notify] (by decide) (by decide)⟩

/-- Claim C6: the mutation-guard watch callback performs exactly this case
analysis on the counter: at 0 it raises the immutability-violation error
(whose message contains the quoted immutability sentence) and the counter is
left unchanged; at a negative value it raises the should-never-happen
invariant error and the counter is left unchanged; at a positive value it
decrements by exactly 1 and does not raise. -/
theorem claim6_watch_callback (name : String) (m : Int) :
    (m = 0 →
      watchCallback name m = .error (name
        ++ " store is immutable! Updates must happen within a method or computed setter.")
      ∧ strContains (name
          ++ " store is immutable! Updates must happen within a method or computed setter.")
          "store is immutable! Updates must happen within a method or computed setter" = true
      ∧ guardStep name m .notify = m)
    ∧ (m < 0 →
      watchCallback name m = .error ("Somehow the mutex is off in " ++ name
        ++ ". This should never happen.")
      ∧ guardStep name m .notify = m)
    ∧ (0 < m →
      watchCallback name m = .ok (m - 1) ∧ guardStep name m .notify = m - 1) := by
  refine ⟨?_, ?_, ?_⟩
  · intro h0
    subst h0
    refine ⟨by simp [watchCallback], ?_, by simp [guardStep, watchCallback]⟩
    have hsplit : (" store is immutable! Updates must happen within a method or computed setter."
        : String) = " "
        ++ "store is immutable! Updates must happen within a method or computed setter"
        ++ "." := by decide
    rw [hsplit]
    have := strContains_mid (name ++ " ")
      "store is immutable! Updates must happen within a method or computed setter" "."
    simpa [String.append_assoc] using this
  · intro hneg
    constructor
    · rw [watchCallback, if_neg (by omega), if_pos hneg]
    · rw [guardStep, watchCallback, if_neg (by omega), if_pos hneg]
  · intro hpos
    constructor
    · rw [watchCallback, if_neg (by omega), if_neg (by omega)]
    · rw [guardStep, watchCallback, if_neg (by omega), if_neg (by omega)]

/-- Claim C6 witness: the three callback behaviours at the counter values
0, -1 and 2. -/
theorem claim6_watch_callback_witness :
    watchCallback "m" 0
      = .error "m store is immutable! Updates must happen within a method or computed setter."
    ∧ watchCallback "m" (-1)
      = .error "Somehow the mutex is off in m. This should never happen."
    ∧ watchCallback "m" 2 = .ok 1 := by
  refine ⟨?_, ?_, ?_⟩
  · have h := ((claim6_watch_callback "m" 0).1 rfl).1
    rw [h]
    simp
  · have h := ((claim6_watch_callback "m" (-1)).2.1 (by decide)).1
    rw [h]
    simp
  · have h := ((claim6_watch_callback "m" 2).2.2 (by decide)).1
    rw [h]
    norm_num

/-- Claim C7: when the mutation guard is installed, every entry of the
methods mapping is replaced by its wrapper, and so is the set member of
every computed entry that is object-shaped with a set member; the wrapper
first increments the receiver counter by 1, then invokes the original with
exactly the same argument list and the otherwise-unchanged receiver, and
passes the original return value (and receiver effect) through unchanged —
while plain getter functions and object entries without a set member are
left untouched. -/
theorem claim7_guard_wrapping :
    (∀ (methods : List (String × MFn)) (k : String) (f : MFn),
      List.lookup k methods = some f →
      List.lookup k (guardMethods methods) = some (wrapGuard f))
    ∧ (∀ (f : MFn) (this : MInst) (args : List JSValue),
        wrapGuard f this args = f { mutex := this.mutex + 1, data := this.data } args)
    ∧ (∀ (computed : List (String × ComputedEntry)) (k : String) (g sf : Option MFn)
        (s0 : MFn), sf = some s0 →
        List.lookup k computed = some (.objE g sf) →
        List.lookup k (guardComputed computed) = some (.objE g (some (wrapGuard s0))))
    ∧ (∀ (computed : List (String × ComputedEntry)) (k : String) (g : MFn),
        List.lookup k computed = some (.fn g) →
        List.lookup k (guardComputed computed) = some (.fn g))
    ∧ (∀ (computed : List (String × ComputedEntry)) (k : String) (g : Option MFn),
        List.lookup k computed = some (.objE g none) →
        List.lookup k (guardComputed computed) = some (.objE g none)) := by
  refine ⟨lookup_guardMethods, ?_, ?_, ?_, ?_⟩
  · intro f this args
    rfl
  · intro computed k g sf s0 hs h
    subst hs
    have := lookup_guardComputed computed k _ h
    simpa [guardComputedEntry] using this
  · intro computed k g h
    have := lookup_guardComputed computed k _ h
    simpa [guardComputedEntry] using this
  · intro computed k g h
    have := lookup_guardComputed computed k _ h
    simpa [guardComputedEntry] using this

/-- Claim C7 witness: wrapping a concrete method and a concrete computed
setter, leaving a plain getter untouched, with the wrapper bumping the
counter and passing the return value through. -/
theorem claim7_guard_wrapping_witness :
    List.lookup "inc" (guardMethods [("inc", sampleFn)]) = some (wrapGuard sampleFn)
    ∧ wrapGuard sampleFn ⟨0, .null⟩ [] = sampleFn ⟨1, .null⟩ []
    ∧ List.lookup "c" (guardComputed [("c", .objE none (some sampleFn))])
        = some (.objE none (some (wrapGuard sampleFn)))
    ∧ List.lookup "g" (guardComputed [("g", .fn sampleFn)]) = some (.fn sampleFn) :=
  ⟨claim7_guard_wrapping.1 [("inc", sampleFn)] "inc" sampleFn rfl,
   claim7_guard_wrapping.2.1 sampleFn ⟨0, .null⟩ [],
   claim7_guard_wrapping.2.2.1 [("c", .objE none (some sampleFn))] "c" none
     (some sampleFn) sampleFn rfl rfl,
   claim7_guard_wrapping.2.2.2.1 [("g", .fn sampleFn)] "g" sampleFn rfl⟩

/-- Claim C8: maybeNull on a nested schema (object or array node) yields a
leaf predicate that accepts null immediately and otherwise delegates to
deepTypeCheck, returning true exactly when that call does not raise and
propagating its error unchanged otherwise (never returning false); maybeNull
on a plain predicate yields the predicate true iff the value is null or the
inner predicate accepts it — so maybeNull(string) accepts null and every
string and rejects undefined, numbers, and objects. -/
theorem claim8_maybe_null :
    (∀ fields : List (String × Schema),
      maybeNull (.obj fields) = .ok (maybeNullDeepPred (.obj fields)))
    ∧ (∀ elems : List Schema,
      maybeNull (.arr elems) = .ok (maybeNullDeepPred (.arr elems)))
    ∧ (∀ (t : Schema) (v : JSValue) (p : Path), isNull v = true →
        maybeNullDeepPred t v p = .ok true)
    ∧ (∀ (t : Schema) (v : JSValue) (p : Path), isNull v = false →
        maybeNullDeepPred t v p = (deepTypeCheck v t p).map (fun _ => true))
    ∧ (∀ f : Pred, maybeNull (.pred f) = .ok (maybeNullPlainPred f))
    ∧ (∀ (f : Pred) (v : JSValue) (p : Path),
        maybeNullPlainPred f v p = if isNull v then .ok true else f v undefinedPath)
    ∧ (∀ (s : String) (p : Path), maybeNullPlainPred typesString (.str s) p = .ok true)
    ∧ (∀ p : Path, maybeNullPlainPred typesString .null p = .ok true)
    ∧ (∀ p : Path, maybeNullPlainPred typesString .undefined p = .ok false)
    ∧ (∀ (n : Int) (p : Path), maybeNullPlainPred typesString (.num n) p = .ok false)
    ∧ (∀ (jfs : List (String × JSValue)) (p : Path),
        maybeNullPlainPred typesString (.obj jfs) p = .ok false) := by
  refine ⟨fun _ => rfl, fun _ => rfl, ?_, ?_, fun _ => rfl, fun _ _ _ => rfl,
    ?_, ?_, ?_, ?_, ?_⟩
  · intro t v p hv
    simp [maybeNullDeepPred, hv]
  · intro t v p hv
    rw [maybeNullDeepPred]
    simp only [hv, Bool.false_eq_true, if_false]
    cases deepTypeCheck v t p with
    | ok u => cases u; rfl
    | error e => rfl
  · intro s p
    simp [maybeNullPlainPred, isNull, typesString]
  · intro p
    simp [maybeNullPlainPred, isNull]
  · intro p
    simp [maybeNullPlainPred, isNull, typesString]
  · intro n p
    simp [maybeNullPlainPred, isNull, typesString]
  · intro jfs p
    simp [maybeNullPlainPred, isNull, typesString]

/-- Claim C8 witness: the nested-schema predicate at null and at a
mismatching non-null value, where it propagates the inner validation error. -/
theorem claim8_maybe_null_witness :
    isNull (.null : JSValue) = true
    ∧ maybeNullDeepPred (.obj [("a", .pred typesString)]) .null [.key "<m>"] = .ok true
    ∧ isNull (.num 4 : JSValue) = false
    ∧ maybeNullDeepPred (.obj [("a", .pred typesString)]) (.num 4) [.key "<m>"]
        = (deepTypeCheck (.num 4) (.obj [("a", .pred typesString)]) [.key "<m>"]).map
            (fun _ => true) := by
  refine ⟨rfl, ?_, rfl, ?_⟩
  · exact claim8_maybe_null.2.2.1 _ _ _ rfl
  · exact claim8_maybe_null.2.2.2.1 _ _ _ rfl

/-- Claim C9, counterexample: the claim as stated is false — the predicate
types.model does not return a falsy result without raising on every
non-instance value: on null it raises the property-access TypeError, because
the source reads v._isVue unconditionally. -/
theorem claim9_counterexample :
    typesModel "user" .null [] = .error "Cannot read properties of null (reading _isVue)" := by
  simp [typesModel, getProp]

/-- Claim C9 (amended): the predicate returned by types.model(name) returns
true on a constructed model instance exactly when the registered name equals
the given name; on primitives, arrays, and objects whose _isVue marker is
not truthy it returns a falsy result without raising; on null and undefined
it raises the property-access TypeError instead. -/
theorem claim9_model_predicate (name n : String) (p : Path) :
    (typesModel name (.vueInstance n) p = .ok true ↔ n = name)
    ∧ typesModel name (.vueInstance n) p = .ok (n == name)
    ∧ typesModel name .null p
        = .error "Cannot read properties of null (reading _isVue)"
    ∧ typesModel name .undefined p
        = .error "Cannot read properties of undefined (reading _isVue)"
    ∧ (∀ b, typesModel name (.bool b) p = .ok false)
    ∧ (∀ i : Int, typesModel name (.num i) p = .ok false)
    ∧ (∀ s, typesModel name (.str s) p = .ok false)
    ∧ (∀ vs, typesModel name (.arr vs) p = .ok false)
    ∧ (∀ jfs, truthy (lookupField jfs "_isVue") = false →
        typesModel name (.obj jfs) p = .ok false) := by
  have hinst : typesModel name (.vueInstance n) p = .ok (n == name) := by
    simp [typesModel, getProp, dataGet, truthy, lookupField, jsStrictEq]
  refine ⟨?_, hinst, by simp [typesModel, getProp], by simp [typesModel, getProp],
    ?_, ?_, ?_, ?_, ?_⟩
  · rw [hinst]
    constructor
    · intro h
      have : (n == name) = true := by simpa using h
      simpa using this
    · intro h
      subst h
      simp
  · intro b
    simp [typesModel, getProp, dataGet, truthy]
  · intro i
    simp [typesModel, getProp, dataGet, truthy]
  · intro s
    simp [typesModel, getProp, dataGet, truthy]
  · intro vs
    simp [typesModel, getProp, dataGet, truthy]
  · intro jfs hf
    simp [typesModel, getProp, dataGet, hf]

/-- Claim C9 witness: the predicate at a matching instance, a mismatching
instance, and a plain object without the marker. -/
theorem claim9_model_predicate_witness :
    typesModel "user" (.vueInstance "user") [] = .ok true
    ∧ typesModel "user" (.vueInstance "other") [] = .ok false
    ∧ truthy (lookupField [("x", .num 1)] "_isVue") = false
    ∧ typesModel "user" (.obj [("x", .num 1)]) [] = .ok false := by
  refine ⟨?_, ?_, by simp [lookupField, truthy], ?_⟩
  · have h := (claim9_model_predicate "user" "user" []).2.1
    simpa using h
  · have h := (claim9_model_predicate "user" "other" []).2.1
    simpa using h
  · exact (claim9_model_predicate "user" "user" []).2.2.2.2.2.2.2.2 [("x", .num 1)]
      (by simp [lookupField, truthy])

/-- Claim C10: with the guard installed (immutability not disabled,
non-production), model() rewrites the caller-supplied storeOptions in place:
every entry of storeOptions.methods is overwritten with its wrapper, the set
member of every object-shaped computed entry carrying one is overwritten
with its wrapper, so the caller-visible mapping no longer holds the original
functions — and passing the resulting storeOptions to model() a second time
wraps the already-wrapped functions again. -/
theorem claim10_in_place_wrapping (isProd : Bool) (so : StoreOptions) (mo : ModelOptions)
    (r : ModelResult) (hm : model isProd so mo = .ok r)
    (him : mo.immutable ≠ some false) (hp : isProd = false) :
    r.storeOptionsAfter.methods = so.methods.map guardMethods
    ∧ r.storeOptionsAfter.computed = so.computed.map guardComputed
    ∧ (∀ ms k f, so.methods = some ms → List.lookup k ms = some f →
        ∃ ms2, r.storeOptionsAfter.methods = some ms2
          ∧ List.lookup k ms2 = some (wrapGuard f))
    ∧ (∀ cs k g sf, so.computed = some cs → List.lookup k cs = some (.objE g (some sf)) →
        ∃ cs2, r.storeOptionsAfter.computed = some cs2
          ∧ List.lookup k cs2 = some (.objE g (some (wrapGuard sf))))
    ∧ (∀ r2, model isProd r.storeOptionsAfter mo = .ok r2 →
        ∀ ms k f, so.methods = some ms → List.lookup k ms = some f →
        ∃ ms3, r2.storeOptionsAfter.methods = some ms3
          ∧ List.lookup k ms3 = some (wrapGuard (wrapGuard f))) := by
  obtain ⟨hafter, _, _⟩ := model_ok_guard isProd so mo r hm him hp
  refine ⟨by rw [hafter], by rw [hafter], ?_, ?_, ?_⟩
  · intro ms k f hms hf
    refine ⟨guardMethods ms, ?_, lookup_guardMethods ms k f hf⟩
    rw [hafter]
    simp [hms]
  · intro cs k g sf hcs hf
    refine ⟨guardComputed cs, ?_, ?_⟩
    · rw [hafter]
      simp [hcs]
    · have := lookup_guardComputed cs k _ hf
      simpa [guardComputedEntry] using this
  · intro r2 hm2 ms k f hms hf
    obtain ⟨hafter2, _, _⟩ := model_ok_guard isProd r.storeOptionsAfter mo r2 hm2 him hp
    refine ⟨guardMethods (guardMethods ms), ?_, ?_⟩
    · rw [hafter2, hafter]
      simp [hms]
    · exact lookup_guardMethods _ k _ (lookup_guardMethods ms k f hf)

/-- Claim C10 witness: a concrete model() call wraps the caller-visible
method and computed setter; a check on the concrete outcome record. -/
theorem claim10_in_place_wrapping_witness :
    model false soW moW = .ok rW
    ∧ rW.storeOptionsAfter.methods = soW.methods.map guardMethods
    ∧ ∃ ms2, rW.storeOptionsAfter.methods = some ms2
        ∧ List.lookup "inc" ms2 = some (wrapGuard sampleFn) := by
  have hm : model false soW moW = .ok rW := by
    rw [model]
    simp [soW, moW, rW, truthy, dataGet, lookupField, preflightCheck, modelName,
      guardMethods, guardComputed, guardComputedEntry, schemaWatchProps]
  refine ⟨hm, ?_, ?_⟩
  · exact (claim10_in_place_wrapping false soW moW rW hm (by simp [moW]) rfl).1
  · exact (claim10_in_place_wrapping false soW moW rW hm (by simp [moW]) rfl).2.2.1
      [("inc", sampleFn)] "inc" sampleFn rfl rfl

end VueStateTree
